import Mathlib

/-!
Verification of the SpC-NAV navigation agent (`r2r_src/configuration_agent2.py`
and `r2r_src/model.py`) against its natural-language specification.

Shallow embedding conventions:
* python floats (geodesic distances, logits, log-probabilities, features) are
  modelled by `ℚ`;
* a logit row after the additive `-inf` candidate mask is a `List MLogit`,
  where `MLogit.neginf` models the `-float(inf)` fill;
* the external library routines `exp` and `log` used inside
  `torch.nn.functional.softmax` / `log_softmax` / `Categorical` are modelled by
  executable surrogates `expQ` and `logQ`; the only property of `exp` the
  verified claims rely on is strict positivity, which `expQ` has, and no claim
  depends on the numeric value of a recorded log-probability;
* fallible code paths (python `assert` / `raise` / `sys.exit`) are modelled by
  `Except String`;
* the neural networks, the simulator and the feature caches are external
  collaborators: their per-step outputs enter the embedded state machines as
  explicit inputs (oracles), while every piece of control flow, bookkeeping and
  arithmetic of the agent itself is translated from the source.
-/

/-- A logit value after masking: either a finite score or the `-inf` fill that
`logit.masked_fill_(candidate_mask, -float(inf))` writes into masked slots. -/
inductive MLogit where
  | neginf : MLogit
  | val : ℚ → MLogit
  deriving DecidableEq

/-- Strict comparison on masked logits: `-inf` is below every finite value. -/
def MLogit.ltb : MLogit → MLogit → Bool
  | _, .neginf => false
  | .neginf, .val _ => true
  | .val a, .val b => decide (a < b)

/-- Non-strict comparison on masked logits. -/
def MLogit.leb : MLogit → MLogit → Bool
  | .neginf, _ => true
  | .val _, .neginf => false
  | .val a, .val b => decide (a ≤ b)

/-- Modelled from the spec: `utils.length2mask` (the file `r2r_src/utils.py` is
not part of the sources under verification).  Per the spec, the mask row of an
agent with `leng` valid slots marks exactly the indices `j ≥ leng` of the
width-`width` logit row as invalid ("any candidate index beyond an agent's true
candidate count must never influence the softmax").  `True` means masked. -/
def maskRow (leng width : Nat) : List Bool :=
  (List.range width).map (fun j => decide (leng ≤ j))

/-- `logit.masked_fill_(candidate_mask, -float(inf))`: write `-inf` into every
masked slot of the logit row. -/
def maskedFillRow (logits : List ℚ) (mask : List Bool) : List MLogit :=
  List.zipWith (fun q b => if b then MLogit.neginf else MLogit.val q) logits mask

/-- Maximum of a list of masked logits, folded from an accumulator. -/
def maxLogit : List MLogit → MLogit → MLogit
  | [], acc => acc
  | x :: rest, acc => maxLogit rest (if acc.ltb x then x else acc)

/-- Index of the first occurrence of `v` (0 if absent past the end). -/
def idxOfLogit (v : MLogit) : List MLogit → Nat
  | [] => 0
  | x :: rest => if x = v then 0 else idxOfLogit v rest + 1

/-- `logit.max(1)`: index of the first maximal entry of the row. -/
def argmaxRow (row : List MLogit) : Nat :=
  idxOfLogit (maxLogit row MLogit.neginf) row

/-- Executable surrogate for the real exponential used by the library softmax.
The claims about masking rely only on `exp` being strictly positive on finite
inputs and `exp(-inf) = 0`; `expQ` is strictly positive everywhere. -/
def expQ (q : ℚ) : ℚ := if 0 ≤ q then 1 + q else 1 / (1 - q)

/-- Softmax weight of one masked logit: `exp(-inf) = 0` on masked slots. -/
def weightOf : MLogit → ℚ
  | .neginf => 0
  | .val q => expQ q

/-- `F.softmax(logit, 1)` over one row of masked logits: each softmax weight
divided by the row's total weight. -/
def softmaxRow (row : List MLogit) : List ℚ :=
  (row.map weightOf).map (fun w => w / (row.map weightOf).sum)

/-- Executable surrogate for the real logarithm used by `F.log_softmax` and
`Categorical.log_prob`.  No verified claim depends on the numeric value of a
recorded log-probability, only on whether one is recorded. -/
def logQ (q : ℚ) : ℚ := q - 1

/-- Inverse-CDF sampling from a categorical distribution: the sample drawn at
uniform draw `u` is the first index whose probability bucket contains `u`. -/
def sampleCatAux : List ℚ → ℚ → Nat → Nat
  | [], _, i => i
  | p :: rest, u, i => if u < p then i else sampleCatAux rest (u - p) (i + 1)

/-- `torch.distributions.Categorical(probs).sample()` at uniform draw `u`. -/
def sampleCat (probs : List ℚ) (u : ℚ) : Nat :=
  sampleCatAux probs u 0

/-- `Categorical(probs).entropy()` (with the surrogate `logQ`). -/
def entropyQ (probs : List ℚ) : ℚ :=
  -((probs.map (fun p => p * logQ p)).sum)

/- ----------------------------------------------------------------------
Reward shaping (`Seq2SeqAgent.rollout`, lines 694-720).
---------------------------------------------------------------------- -/

/-- One agent's reward and mask weight for one rollout timestep
(`configuration_agent2.py` lines 698-717).  `ended` is the flag *before* this
action, `actionIdx` is `cpu_a_t[i]` (`-1` is the stop/ignore sentinel), `dist`
is the new geodesic distance `ob['distance']` and `lastDist` the previous one.
The zero distance-delta case is the `raise NameError` of line 717. -/
def stepRewardMask (ended : Bool) (actionIdx : Int) (dist lastDist : ℚ) :
    Except String (ℚ × ℚ) :=
  if ended then .ok (0, 0)
  else if actionIdx = -1 then
    if dist < 3 then .ok (2, 1) else .ok (-2, 1)
  else
    let r := -(dist - lastDist)
    if 0 < r then .ok (1, 1)
    else if r < 0 then .ok (-1, 1)
    else .error "The action does not change the move"

/- ----------------------------------------------------------------------
Observations and `Seq2SeqAgent._teacher_action` (lines 371-390).
---------------------------------------------------------------------- -/

/-- One navigable candidate of an observation (the fields the verified
claims touch). -/
structure Candidate where
  viewpointId : String
  pointId : Nat
  feature : List ℚ
  deriving DecidableEq

/-- One per-agent observation (the fields the verified claims touch). -/
structure Ob where
  viewpoint : String
  teacher : String
  distance : ℚ
  heading : ℚ
  elevation : ℚ
  candidate : List Candidate
  deriving DecidableEq

/-- The `for ... break / else` scan of `_teacher_action`: index of the first
candidate whose `viewpointId` equals the teacher's next viewpoint. -/
def firstMatchIdx (teacher : String) : List Candidate → Option Nat
  | [] => none
  | c :: rest =>
    if c.viewpointId = teacher then some 0
    else (firstMatchIdx teacher rest).map (· + 1)

/-- `Seq2SeqAgent._teacher_action` for a single agent: ended agents get the
ignore sentinel; otherwise the first matching candidate index; otherwise the
`assert ob['teacher'] == ob['viewpoint']` followed by the stop index. -/
def teacherActionFor (ignoreid : Int) (ob : Ob) (ended : Bool) :
    Except String Int :=
  if ended then .ok ignoreid
  else
    match firstMatchIdx ob.teacher ob.candidate with
    | some k => .ok (k : Int)
    | none =>
      if ob.teacher = ob.viewpoint then .ok (ob.candidate.length : Int)
      else .error "assert ob[teacher] == ob[viewpoint] failed"

/-- `Seq2SeqAgent._teacher_action` over the whole batch. -/
def teacherAction (ignoreid : Int) : List Ob → List Bool →
    Except String (List Int)
  | [], [] => .ok []
  | ob :: obs, e :: es => do
    let a ← teacherActionFor ignoreid ob e
    let rest ← teacherAction ignoreid obs es
    .ok (a :: rest)
  | _, _ => .error "batch length mismatch"

/- ----------------------------------------------------------------------
`Seq2SeqAgent._candidate_variable1` (lines 233-242).
---------------------------------------------------------------------- -/

/-- Python `max` over a list of naturals (the source only applies it to
nonempty lists). -/
def listMax : List Nat → Nat
  | [] => 0
  | x :: rest => max x (listMax rest)

/-- `candidate_leng`: one more than each agent's candidate count (the extra
slot is the `END`/stop slot). -/
def candidate_leng (obs : List Ob) : List Nat :=
  obs.map (fun ob => ob.candidate.length + 1)

/-- One agent's row block of the `candidate_feat` tensor: the tensor is
zero-initialised, then row `j` is overwritten with candidate `j`'s feature for
`j < len(ob['candidate'])`; the stop slot and padding rows stay zero.
`d` is `feature_size + angle_feat_size`. -/
def candidateFeatRow (d width : Nat) (ob : Ob) : List (List ℚ) :=
  (List.range width).map (fun j =>
    match ob.candidate.get? j with
    | some c => c.feature
    | none => List.replicate d 0)

/-- `Seq2SeqAgent._candidate_variable1`: the padded per-candidate feature
tensor together with `candidate_leng`. -/
def candidateVariable1 (d : Nat) (obs : List Ob) :
    List (List (List ℚ)) × List Nat :=
  let lengs := candidate_leng obs
  (obs.map (candidateFeatRow d (listMax lengs)), lengs)

/- ----------------------------------------------------------------------
Action selection (`Seq2SeqAgent.rollout`, lines 437-439 and 663-680).
---------------------------------------------------------------------- -/

/-- Result of the per-timestep action selection block: the chosen action,
whether `.detach()` was called on it, and the updated `policy_log_probs` and
`entropys` accumulators. -/
structure SelOut where
  a_t : Int
  detached : Bool
  policy_log_probs : List ℚ
  entropys : List ℚ
  deriving DecidableEq

/-- The `if self.feedback == ...` chain of `rollout` (lines 663-680): teacher
forcing returns the teacher target; `argmax` takes the detached arg-max and
appends the gathered log-softmax value of the chosen action to
`policy_log_probs`; `sample` draws from the categorical distribution (inverse
CDF at uniform draw `u`), appends its entropy and the sample's log-probability;
any other mode is the `sys.exit('Invalid feedback option')`. -/
def selectAction (feedback : String) (row : List MLogit) (target : Int)
    (u : ℚ) (policyLogProbs entropys : List ℚ) : Except String SelOut :=
  if feedback = "teacher" then
    .ok ⟨target, false, policyLogProbs, entropys⟩
  else if feedback = "argmax" then
    let a := argmaxRow row
    .ok ⟨(a : Int), true,
         policyLogProbs ++ [logQ ((softmaxRow row).getD a 0)], entropys⟩
  else if feedback = "sample" then
    let probs := softmaxRow row
    let a := sampleCat probs u
    .ok ⟨(a : Int), true,
         policyLogProbs ++ [logQ (probs.getD a 0)],
         entropys ++ [entropyQ probs]⟩
  else .error "Invalid feedback option"

/-- Lines 438-439 of `rollout`: `if self.feedback == 'teacher' or
self.feedback == 'argmax': train_rl = False`. -/
def effectiveTrainRl (feedback : String) (train_rl : Bool) : Bool :=
  if feedback = "teacher" ∨ feedback = "argmax" then false else train_rl

/-- Extract the `policy_log_probs` accumulator from a selection result
(empty on error). -/
def selOutProbs : Except String SelOut → List ℚ
  | .ok o => o.policy_log_probs
  | .error _ => []

/- ----------------------------------------------------------------------
The rollout episode loop (`Seq2SeqAgent.rollout`, lines 607-728, and
`make_equiv_action`, lines 392-425).
---------------------------------------------------------------------- -/

/-- A `(viewpointId, heading, elevation)` trajectory entry. -/
abbrev Loc := String × ℚ × ℚ

/-- Per-agent input of one rollout timestep, supplied by the external
decoder and simulator: the raw selected action `next_id` (`a_t[i]`), the new
geodesic distance `ob['distance']` after the action, and the locations that
the primitive simulator calls of `make_equiv_action` append to the
trajectory when the agent moves. -/
structure StepIn where
  next_id : Int
  dist : ℚ
  moveLocs : List Loc
  deriving DecidableEq

/-- Per-agent rollout bookkeeping state. -/
structure AgentRoll where
  ended : Bool
  path : List Loc
  lastDist : ℚ
  deriving DecidableEq

/-- Lines 685-687 of `rollout`: the raw action is forced to the `-1` sentinel
when it is the stop slot (`candidate_leng[i] - 1`), the ignore id, or the
agent has already ended. -/
def forceAction (next_id : Int) (candLeng : Nat) (ignoreid : Int)
    (ended : Bool) : Int :=
  if next_id = (candLeng : Int) - 1 ∨ next_id = ignoreid ∨ ended then -1
  else next_id

/-- One rollout timestep for one agent: force the action, extend the
trajectory unless the forced action is `-1` (`make_equiv_action` line 409),
compute reward and mask with the *pre-step* ended flag, then update the ended
flag (`ended[:] = np.logical_or(ended, cpu_a_t == -1)`) and `last_dist`.
Returns the new state and this step's `(reward, mask)` entries. -/
def agentStep (ignoreid : Int) (candLeng : Nat) (inp : StepIn)
    (a : AgentRoll) : Except String (AgentRoll × ℚ × ℚ) := do
  let cpu := forceAction inp.next_id candLeng ignoreid a.ended
  let path' := if cpu = -1 then a.path else a.path ++ inp.moveLocs
  let rm ← stepRewardMask a.ended cpu inp.dist a.lastDist
  .ok (⟨a.ended ∨ cpu = -1, path', inp.dist⟩, rm)

/-- One rollout timestep over the whole batch. -/
def rollStepAux (ignoreid : Int) : List StepIn → List Nat → List AgentRoll →
    Except String (List (AgentRoll × ℚ × ℚ))
  | [], [], [] => .ok []
  | inp :: inps, c :: cs, a :: as => do
    let x ← agentStep ignoreid c inp a
    let rest ← rollStepAux ignoreid inps cs as
    .ok (x :: rest)
  | _, _, _ => .error "batch length mismatch"

/-- The `for t in range(self.episode_len)` loop (lines 607-728): run one
batched step per iteration, break as soon as `ended.all()`.  `stream t` is the
external world's input at timestep `t` (raw actions, distances, trajectory
extensions and the step's `candidate_leng`).  Returns the final agent states
and the number of executed iterations. -/
def rolloutLoop (ignoreid : Int) (stream : Nat → List StepIn × List Nat) :
    Nat → Nat → List AgentRoll → Except String (List AgentRoll × Nat)
  | 0, t, ags => .ok (ags, t)
  | fuel + 1, t, ags =>
    match rollStepAux ignoreid (stream t).1 (stream t).2 ags with
    | .error e => .error e
    | .ok res =>
      if (res.map (fun x => x.1)).all (fun x => x.ended) then
        .ok (res.map (fun x => x.1), t + 1)
      else rolloutLoop ignoreid stream fuel (t + 1) (res.map (fun x => x.1))

/-- The rollout episode loop run for `episode_len` timesteps. -/
def rolloutRun (ignoreid : Int) (stream : Nat → List StepIn × List Nat)
    (episode_len : Nat) (init : List AgentRoll) :
    Except String (List AgentRoll × Nat) :=
  rolloutLoop ignoreid stream episode_len 0 init

/- ----------------------------------------------------------------------
The decoder call of `rollout` (lines 638-643) against
`ConfigurationDecoder.forward` (model.py lines 688-693):
python keyword-argument binding.
---------------------------------------------------------------------- -/

/-- The parameter names of `ConfigurationDecoder.forward` (`model.py` lines
688-693), in order, `self` excluded (it is bound by the method call).
`forward` has no `**kwargs` catch-all. -/
def configurationDecoderForwardParams : List String :=
  ["action", "feature", "cand_feat", "h_0", "prev_h1", "c_0",
   "ctx", "step", "s_0", "r_t", "ctx_mask", "object_mask",
   "landmark_object_feature", "candidate_obj_img_feat",
   "candidate_obj_text_feat", "landmark_mask", "landmark_triplet_feature",
   "obj_rel_arg_feat", "candidat_relation", "view_img_feat", "view_feature",
   "view_object_similarity", "view_mask", "already_dropfeat"]

/-- The number of positional arguments of the `self.decoder(...)` call in
`rollout` (lines 638-643): `input_a_t, f_t, candidate_feat, h_t, h1, c_t,
ctx, t, ctx_attn, r_t, ctx_mask`. -/
def rolloutDecoderCallPositionals : Nat := 11

/-- The keyword arguments of the `self.decoder(...)` call in `rollout`
(lines 640-643). -/
def rolloutDecoderCallKeywords : List String :=
  ["landmark_similarity", "landmark_mask", "landmark_triplet_feature",
   "obj_rel_arg_feat", "candidat_relation", "view_img_feat", "view_feature",
   "view_object_similarity", "view_mask", "already_dropfeat"]

/-- The class of `self.decoder` as constructed in `Seq2SeqAgent.__init__`
(line 119). -/
def seq2SeqAgentDecoderClass : String := "ConfigurationDecoder"

/-- Python call binding for a function without `**kwargs`: the call is
accepted only if the positional arguments fit, every keyword names a declared
parameter, and no keyword rebinds a positionally bound parameter; otherwise
python raises `TypeError` before the body runs. -/
def pythonAcceptsCall (params : List String) (numPositional : Nat)
    (keywords : List String) : Bool :=
  decide (numPositional ≤ params.length) &&
  keywords.all (fun k => params.contains k) &&
  keywords.all (fun k => !((params.take numPositional).contains k))

/- ----------------------------------------------------------------------
`Seq2SeqAgent._dijkstra` (lines 818-1028): best-first multi-candidate
path search.
---------------------------------------------------------------------- -/

/-- A search state id `(viewpoint, action)`, the decomposition of the
`"%s_%s" % (viewpoint, str(action))` string keys of `id2state`
(`make_state_id` / `decompose_state_id` are mutually inverse). -/
abbrev StateKey := String × Int

/-- One entry of `id2state` (the dict literal of lines 864-877 and 972-981).
The recurrent `running_state` triple and the lazily recovered `feature`
snapshot are opaque tensor data, modelled as rational vectors.  Headings and
elevations of expansion targets are recorded in units of `π/6`. -/
structure SearchState where
  next_viewpoint : String
  running_state : List ℚ
  location : Loc
  feature : Option (List ℚ × List ℚ)
  from_state_id : Option StateKey
  score : ℚ
  scores : List ℚ
  actions : List Int
  deriving DecidableEq

/-- The `id2state` dict of one batch item, as an insertion-ordered
association list with unique keys (python dict semantics). -/
abbrev Assoc := List (StateKey × SearchState)

/-- Dict lookup. -/
def alLookup : Assoc → StateKey → Option SearchState
  | [], _ => none
  | (k', v) :: rest, k => if k' = k then some v else alLookup rest k

/-- Dict assignment `id2state[i][next_id] = {...}`: replace the value at an
existing key in place, or append a new key. -/
def alInsert : Assoc → StateKey → SearchState → Assoc
  | [], k, v => [(k, v)]
  | (k', v') :: rest, k, v =>
    if k' = k then (k, v) :: rest else (k', v') :: alInsert rest k v

/-- The score relaxation of lines 971-981: the new state is written if and
only if its key is unseen or its score strictly improves the stored one
(`if next_id not in id2state[i] or new_score > id2state[i][next_id]['score']`). -/
def relaxWrite (m : Assoc) (key : StateKey) (st : SearchState) : Assoc :=
  match alLookup m key with
  | none => alInsert m key st
  | some old => if old.score < st.score then alInsert m key st else m

/-- One navigable candidate as seen by the search expansion. -/
structure CandInfo where
  viewpointId : String
  pointId : Nat
  deriving DecidableEq

/-- Per-agent-per-round input from the external world (simulator observation
and decoder output): the candidate list of the reached viewpoint, the masked
log-softmax row (`log_probs[i][j]`, width `max(candidate_leng)`), the
observation's heading/elevation, the feature tensors `f_t[i]` and
`candidate_feat[i][j]`, and the new recurrent state. -/
structure RoundInput where
  candidate : List CandInfo
  log_probs : List ℚ
  obHeading : ℚ
  obElevation : ℚ
  f_feat : List ℚ
  cand_feats : List (List ℚ)
  hidden : List ℚ
  deriving DecidableEq

/-- `heading = (trg_point % 12) * math.pi / 6`, recorded in units of `π/6`. -/
def headingOfPoint (p : Nat) : ℚ := ((p % 12 : Nat) : ℚ)

/-- `elevation = (trg_point // 12 - 1) * math.pi / 6`, in units of `π/6`. -/
def elevationOfPoint (p : Nat) : ℚ := ((p / 12 : Nat) : ℚ) - 1

/-- The candidate entry built by the expansion of lines 955-981 for slot `j`:
`j < len(candidate)` is a normal move to candidate `j`; `j = len(candidate)`
is the `<end>` action (key action `-1`, staying at the current viewpoint).
The current viewpoint is the expanded state's `next_viewpoint` (the assertion
`ob['viewpoint'] == current_state['next_viewpoint']` of line 952). -/
def expandEntry (key : StateKey) (st : SearchState) (inp : RoundInput)
    (j : Nat) : StateKey × SearchState :=
  let currentViewpoint := st.next_viewpoint
  let lp := inp.log_probs.getD j 0
  let base : SearchState :=
    { next_viewpoint := currentViewpoint
      running_state := inp.hidden
      location := (currentViewpoint, inp.obHeading, inp.obElevation)
      feature := some (inp.f_feat, inp.cand_feats.getD j [])
      from_state_id := some key
      score := st.score + lp
      scores := st.scores ++ [lp]
      actions := st.actions ++ [(inp.candidate.length : Int) + 1] }
  match inp.candidate.get? j with
  | some c =>
    ((currentViewpoint, (j : Int)),
     { base with
        next_viewpoint := c.viewpointId
        location :=
          (c.viewpointId, headingOfPoint c.pointId, elevationOfPoint c.pointId) })
  | none => ((currentViewpoint, -1), base)

/-- The `for j in range(len(ob['candidate']) + 1)` expansion loop, relaxing
each produced entry into `id2state` in order. -/
def expand (inp : RoundInput) (key : StateKey) (st : SearchState)
    (m : Assoc) : Assoc :=
  (List.range (inp.candidate.length + 1)).foldl
    (fun acc j =>
      let e := expandEntry key st inp j
      relaxWrite acc e.1 e.2) m

/-- Per-batch-item search bookkeeping: `id2state`, the `visited` and
`finished` sets (element-unique lists) and the `ended` flag. -/
structure AgentState where
  id2state : Assoc
  visited : List StateKey
  finished : List StateKey
  ended : Bool
  deriving DecidableEq

/-- Lines 888-895: the highest-scoring not-yet-visited state (python `max`
keeps the first maximal item of dict order). -/
def selectBest (s : AgentState) : Option (StateKey × SearchState) :=
  (s.id2state.filter (fun kv => !(decide (kv.1 ∈ s.visited)))).foldl
    (fun acc kv =>
      match acc with
      | none => some kv
      | some best => if best.2.score < kv.2.score then some kv else acc)
    none

/-- One round of the search for one batch item (lines 888-986): an ended item
is left untouched (its selected state is used only to keep the batch
mechanically aligned); otherwise the best unvisited state is visited; a stop
state (action `-1`) is recorded as finished, ending the item once
`args.candidates` finished states have accumulated, and is not expanded;
any other state is expanded with score relaxation; finally the item ends when
every known state has been visited.  The unreachable `none` branch (python
`max` over the nonempty unvisited set) conservatively ends the item. -/
def dijkStep (inp : RoundInput) (candNum : Nat) (s : AgentState) :
    AgentState :=
  if s.ended then s
  else
    match selectBest s with
    | none => { s with ended := true }
    | some kv =>
      if kv.1.2 = -1 then
        let finished' := kv.1 :: s.finished
        let ended1 := decide (candNum ≤ finished'.length)
        { id2state := s.id2state
          visited := kv.1 :: s.visited
          finished := finished'
          ended := ended1 ||
            decide ((kv.1 :: s.visited).length = s.id2state.length) }
      else
        let m' := expand inp kv.1 kv.2 s.id2state
        { id2state := m'
          visited := kv.1 :: s.visited
          finished := s.finished
          ended := decide ((kv.1 :: s.visited).length = m'.length) }

/-- One round over the batch; `inp i` is batch item `i`'s round input. -/
def dijkRoundAux (inp : Nat → RoundInput) (candNum : Nat) :
    Nat → List AgentState → List AgentState
  | _, [] => []
  | i, s :: rest => dijkStep (inp i) candNum s :: dijkRoundAux inp candNum (i + 1) rest

/-- The `for _ in range(300)` search loop with the `if ended.all(): break`
early exit; `oracle r i` is the round-`r` input of batch item `i`.  Returns
the final states and the number of executed rounds. -/
def dijkstraLoop (oracle : Nat → Nat → RoundInput) (candNum : Nat) :
    Nat → Nat → List AgentState → List AgentState × Nat
  | 0, r, ags => (ags, r)
  | fuel + 1, r, ags =>
    if (dijkRoundAux (oracle r) candNum 0 ags).all (·.ended) then
      (dijkRoundAux (oracle r) candNum 0 ags, r + 1)
    else
      dijkstraLoop oracle candNum fuel (r + 1)
        (dijkRoundAux (oracle r) candNum 0 ags)

/-- The search loop with the source's 300-round cap. -/
def dijkstraRun (oracle : Nat → Nat → RoundInput) (candNum : Nat)
    (ags : List AgentState) : List AgentState × Nat :=
  dijkstraLoop oracle candNum 300 0 ags

/-- The initial search state of one batch item (lines 864-877): the start
viewpoint under the start-sentinel action `-95`, score `0`, no predecessor. -/
def initSearchState (vp : String) (heading elevation : ℚ) (h0 : List ℚ) :
    SearchState :=
  { next_viewpoint := vp
    running_state := h0
    location := (vp, heading, elevation)
    feature := none
    from_state_id := none
    score := 0
    scores := []
    actions := [] }

/-- The initial per-batch-item bookkeeping (lines 864-881). -/
def initAgentState (vp : String) (heading elevation : ℚ) (h0 : List ℚ) :
    AgentState :=
  { id2state := [((vp, -95), initSearchState vp heading elevation h0)]
    visited := []
    finished := []
    ended := false }

/-- A reconstructed path record (lines 1007-1025).  The `listener_scores` and
`listener_actions` fields are copied verbatim from the finished state and are
not reconstructed, so they are omitted here. -/
structure PathInfo where
  trajectory : List Loc
  action : List Int
  visual_feature : List (Option (List ℚ × List ℚ))
  deriving DecidableEq

/-- The back-pointer walk of lines 1014-1025: `while action != -95` append
the state's location, the key's action and the feature snapshot, follow
`from_state_id`; at the root (action `-95`) append its location and reverse
the three accumulated lists.  `fuel` makes the pointer chase structurally
terminating; a dangling pointer or exhausted fuel yields `none`. -/
def gatherLoop (m : Assoc) : Nat → StateKey → List Loc → List Int →
    List (Option (List ℚ × List ℚ)) → Option PathInfo
  | 0, _, _, _, _ => none
  | fuel + 1, key, tAcc, aAcc, fAcc =>
    match alLookup m key with
    | none => none
    | some st =>
      if key.2 = -95 then
        some { trajectory := (tAcc ++ [st.location]).reverse
               action := aAcc.reverse
               visual_feature := fAcc.reverse }
      else
        match st.from_state_id with
        | none => none
        | some prev =>
          gatherLoop m fuel prev (tAcc ++ [st.location]) (aAcc ++ [key.2])
            (fAcc ++ [st.feature])

/-- Reconstruction of one finished state's path record. -/
def gatherPath (m : Assoc) (fuel : Nat) (key : StateKey) : Option PathInfo :=
  gatherLoop m fuel key [] [] []

/-- Per-key score monotonicity between two `id2state` dicts: every stored
state keeps an entry whose score never decreased. -/
def ScoreMono (m m' : Assoc) : Prop :=
  ∀ (key : StateKey) (old : SearchState), alLookup m key = some old →
    ∃ new, alLookup m' key = some new ∧ old.score ≤ new.score

/-- The finished-set invariant of the search: a non-ended batch item has
strictly fewer than `candNum` finished states, and no item ever exceeds
`candNum`. -/
def FinishedInv (candNum : Nat) (s : AgentState) : Prop :=
  (s.ended = false → s.finished.length < candNum) ∧
  s.finished.length ≤ candNum

/-- Every `id2state` entry keyed by the start-sentinel action `-95` carries
the agent's start location (the search only ever inserts keys with actions
`j ≥ 0` or `-1`, so the initial root entry is the only such entry). -/
def RootLocInv (loc : Loc) (m : Assoc) : Prop :=
  ∀ (k : StateKey) (st : SearchState), alLookup m k = some st →
    k.2 = -95 → st.location = loc

/- ----------------------------------------------------------------------
Helper lemmas: first-match scan of `_teacher_action`.
---------------------------------------------------------------------- -/

lemma firstMatchIdx_none_of (teacher : String) :
    ∀ l : List Candidate, (∀ c ∈ l, c.viewpointId ≠ teacher) →
      firstMatchIdx teacher l = none := by
  intro l
  induction l with
  | nil => intro _; rfl
  | cons x rest ih =>
    intro h
    have hx : x.viewpointId ≠ teacher := h x (List.mem_cons_self x rest)
    have hrest := ih (fun c hc => h c (List.mem_cons_of_mem x hc))
    simp [firstMatchIdx, hx, hrest]

lemma firstMatchIdx_some_of (teacher : String) :
    ∀ (l : List Candidate) (k : Nat) (c : Candidate),
      l.get? k = some c → c.viewpointId = teacher →
      (∀ j c', j < k → l.get? j = some c' → c'.viewpointId ≠ teacher) →
      firstMatchIdx teacher l = some k := by
  intro l
  induction l with
  | nil => intro k c hk; simp at hk
  | cons x rest ih =>
    intro k c hk hc hmin
    cases k with
    | zero =>
      simp at hk
      subst hk
      simp [firstMatchIdx, hc]
    | succ k' =>
      have hx : x.viewpointId ≠ teacher := by
        exact hmin 0 x (Nat.succ_pos k') rfl
      have hk' : rest.get? k' = some c := by simpa using hk
      have hmin' : ∀ j c', j < k' → rest.get? j = some c' →
          c'.viewpointId ≠ teacher := by
        intro j c' hj hj'
        exact hmin (j + 1) c' (Nat.succ_lt_succ hj) (by simpa using hj')
      have := ih k' c hk' hc hmin'
      simp [firstMatchIdx, hx, this]

/-- C4: `_teacher_action` returns, for each non-ended agent, the index of the
first candidate whose `viewpointId` equals the observation's `teacher`; if no
candidate matches it asserts `teacher == viewpoint` (raising on violation)
and returns the stop index `len(ob['candidate'])`; an ended agent gets the
ignore sentinel. -/
theorem teacher_action_spec (ignoreid : Int) (ob : Ob) :
    (teacherActionFor ignoreid ob true = .ok ignoreid) ∧
    (∀ (k : Nat) (c : Candidate), ob.candidate.get? k = some c →
      c.viewpointId = ob.teacher →
      (∀ j c', j < k → ob.candidate.get? j = some c' →
        c'.viewpointId ≠ ob.teacher) →
      teacherActionFor ignoreid ob false = .ok (k : Int)) ∧
    ((∀ c ∈ ob.candidate, c.viewpointId ≠ ob.teacher) →
      ob.teacher = ob.viewpoint →
      teacherActionFor ignoreid ob false = .ok (ob.candidate.length : Int)) ∧
    ((∀ c ∈ ob.candidate, c.viewpointId ≠ ob.teacher) →
      ob.teacher ≠ ob.viewpoint →
      teacherActionFor ignoreid ob false =
        .error "assert ob[teacher] == ob[viewpoint] failed") := by
  refine ⟨rfl, ?_, ?_, ?_⟩
  · intro k c hk hc hmin
    have := firstMatchIdx_some_of ob.teacher ob.candidate k c hk hc hmin
    simp [teacherActionFor, this]
  · intro hnone heq
    have h0 := firstMatchIdx_none_of ob.teacher ob.candidate hnone
    rw [heq] at h0
    simp [teacherActionFor, heq, h0]
  · intro hnone hne
    have := firstMatchIdx_none_of ob.teacher ob.candidate hnone
    simp [teacherActionFor, this, hne]

/-- C4 witness: concrete inputs exercising the first-match case. -/
theorem teacher_action_spec_witness :
    teacherActionFor (-100) ⟨"v0", "v2", 5, 0, 0,
      [⟨"v1", 0, []⟩, ⟨"v2", 1, []⟩, ⟨"v2", 2, []⟩]⟩ false = .ok 1 :=
  (teacher_action_spec (-100) _).2.1 1 ⟨"v2", 1, []⟩ rfl rfl
    (by
      intro j c' hj hj'
      have hj0 : j = 0 := by omega
      subst hj0
      simp at hj'
      subst hj'
      decide)

/-- C1: per timestep and agent, an agent that had already ended gets reward 0
and mask weight 0; otherwise a stop action is rewarded +2 when the remaining
geodesic distance is below 3 and -2 otherwise; otherwise the reward is +1 on a
strict distance decrease, -1 on a strict increase, and a zero distance-delta
raises an error instead of producing a third reward value. -/
theorem rollout_reward_shaping (a : Int) (dist lastDist : ℚ) :
    (stepRewardMask true a dist lastDist = .ok (0, 0)) ∧
    (dist < 3 → stepRewardMask false (-1) dist lastDist = .ok (2, 1)) ∧
    (¬ dist < 3 → stepRewardMask false (-1) dist lastDist = .ok (-2, 1)) ∧
    (a ≠ -1 → dist < lastDist →
      stepRewardMask false a dist lastDist = .ok (1, 1)) ∧
    (a ≠ -1 → lastDist < dist →
      stepRewardMask false a dist lastDist = .ok (-1, 1)) ∧
    (a ≠ -1 → dist = lastDist →
      stepRewardMask false a dist lastDist =
        .error "The action does not change the move") := by
  refine ⟨rfl, ?_, ?_, ?_, ?_, ?_⟩
  · intro h; simp [stepRewardMask, h]
  · intro h; simp [stepRewardMask, h]
  · intro ha h
    simp [stepRewardMask, ha, h]
  · intro ha h
    simp [stepRewardMask, ha, h, lt_asymm h]
  · intro ha h
    subst h
    simp [stepRewardMask, ha]

/-- C1 witness: concrete progress and correct-stop steps. -/
theorem rollout_reward_shaping_witness :
    stepRewardMask false 0 1 2 = .ok (1, 1) ∧
    stepRewardMask false (-1) 1 0 = .ok (2, 1) :=
  ⟨(rollout_reward_shaping 0 1 2).2.2.2.1 (by decide) (by norm_num),
   (rollout_reward_shaping (-1) 1 0).2.1 (by norm_num)⟩

/-- C2: the decoder constructed for `Seq2SeqAgent` is `ConfigurationDecoder`,
whose `forward` has no parameter named `landmark_similarity`, yet the
per-timestep decoder call of `rollout` passes `landmark_similarity` as a
keyword argument; python keyword binding therefore raises `TypeError` at the
decoder call, before any action is selected, on every rollout timestep. -/
theorem rollout_decoder_call_type_error :
    seq2SeqAgentDecoderClass = "ConfigurationDecoder" ∧
    "landmark_similarity" ∈ rolloutDecoderCallKeywords ∧
    "landmark_similarity" ∉ configurationDecoderForwardParams ∧
    pythonAcceptsCall configurationDecoderForwardParams
      rolloutDecoderCallPositionals rolloutDecoderCallKeywords = false := by
  refine ⟨rfl, ?_, ?_, ?_⟩ <;> decide

/-- C7 counterexample: in `argmax` feedback mode the code *does* record a
log-probability for the chosen action (`policy_log_probs` grows), contrary to
the claim that none is recorded. -/
theorem argmax_logprob_counterexample :
    selOutProbs
      (selectAction "argmax" [MLogit.val 1, MLogit.neginf] 0 0 [] []) ≠ [] := by
  decide

/-- C7 (amended): in `argmax` feedback mode the action is the arg-max over the
masked logits and is detached, the log-softmax value of the chosen action is
appended to `policy_log_probs`, and RL training is disabled (`train_rl` is
forced to `False`). -/
theorem argmax_feedback_amended (row : List MLogit) (target : Int) (u : ℚ)
    (plp ents : List ℚ) (rl : Bool) :
    selectAction "argmax" row target u plp ents =
      .ok ⟨(argmaxRow row : Int), true,
           plp ++ [logQ ((softmaxRow row).getD (argmaxRow row) 0)], ents⟩ ∧
    effectiveTrainRl "argmax" rl = false := by
  exact ⟨rfl, rfl⟩

/- ----------------------------------------------------------------------
Helper lemmas: masked logit rows, arg-max and categorical sampling.
---------------------------------------------------------------------- -/

lemma MLogit.leb_refl (a : MLogit) : a.leb a = true := by
  cases a <;> simp [MLogit.leb]

lemma MLogit.leb_of_ltb {a b : MLogit} (h : a.ltb b = true) : a.leb b = true := by
  cases a <;> cases b <;> simp_all [MLogit.ltb, MLogit.leb] <;> linarith

lemma MLogit.leb_of_not_ltb {a b : MLogit} (h : a.ltb b = false) :
    b.leb a = true := by
  cases a <;> cases b <;> simp_all [MLogit.ltb, MLogit.leb]

lemma MLogit.leb_trans {a b c : MLogit} (h1 : a.leb b = true)
    (h2 : b.leb c = true) : a.leb c = true := by
  cases a <;> cases b <;> cases c <;> simp_all [MLogit.leb] <;> linarith

lemma maxLogit_ge_acc : ∀ (l : List MLogit) (acc : MLogit),
    acc.leb (maxLogit l acc) = true := by
  intro l
  induction l with
  | nil => intro acc; simp [maxLogit, MLogit.leb_refl]
  | cons x rest ih =>
    intro acc
    by_cases h : acc.ltb x = true
    · simpa [maxLogit, h] using MLogit.leb_trans (MLogit.leb_of_ltb h) (ih x)
    · have hb : acc.ltb x = false := by simpa using h
      simpa [maxLogit, hb] using ih acc

lemma maxLogit_ge_mem : ∀ (l : List MLogit) (acc x : MLogit), x ∈ l →
    x.leb (maxLogit l acc) = true := by
  intro l
  induction l with
  | nil => intro acc x hx; simp at hx
  | cons y rest ih =>
    intro acc x hx
    rcases List.mem_cons.mp hx with h | h
    · subst h
      by_cases hltb : acc.ltb x = true
      · simpa [maxLogit, hltb] using maxLogit_ge_acc rest x
      · have hb : acc.ltb x = false := by simpa using hltb
        simpa [maxLogit, hb] using
          MLogit.leb_trans (MLogit.leb_of_not_ltb hb) (maxLogit_ge_acc rest acc)
    · by_cases hltb : acc.ltb y = true
      · simpa [maxLogit, hltb] using ih y x h
      · have hb : acc.ltb y = false := by simpa using hltb
        simpa [maxLogit, hb] using ih acc x h

lemma maxLogit_mem_or : ∀ (l : List MLogit) (acc : MLogit),
    maxLogit l acc = acc ∨ maxLogit l acc ∈ l := by
  intro l
  induction l with
  | nil => intro acc; left; rfl
  | cons x rest ih =>
    intro acc
    by_cases h : acc.ltb x = true
    · rcases ih x with h1 | h1
      · right; simp [maxLogit, h, h1]
      · right; rw [maxLogit, if_pos h]; exact List.mem_cons_of_mem x h1
    · have hb : acc.ltb x = false := by simpa using h
      rcases ih acc with h1 | h1
      · left; simpa [maxLogit, hb] using h1
      · right; rw [maxLogit, if_neg (by simp [hb])]
        exact List.mem_cons_of_mem x h1

lemma idxOfLogit_get : ∀ (l : List MLogit) (v : MLogit), v ∈ l →
    l.get? (idxOfLogit v l) = some v := by
  intro l
  induction l with
  | nil => intro v hv; simp at hv
  | cons x rest ih =>
    intro v hv
    by_cases hx : x = v
    · simp [idxOfLogit, hx]
    · have hv' : v ∈ rest := by
        rcases List.mem_cons.mp hv with h1 | h1
        · exact absurd h1.symm hx
        · exact h1
      have hr := ih v hv'
      rw [List.get?_eq_getElem?] at hr
      simp [idxOfLogit, hx, hr]

lemma maskedFillRow_length (logits : List ℚ) (leng width : Nat)
    (hw : logits.length = width) :
    (maskedFillRow logits (maskRow leng width)).length = width := by
  simp [maskedFillRow, maskRow, hw]

lemma maskedFillRow_masked (logits : List ℚ) (leng width j : Nat)
    (hw : logits.length = width) (hj : j < width) (h : leng ≤ j) :
    (maskedFillRow logits (maskRow leng width))[j]? = some MLogit.neginf := by
  have hlj : j < logits.length := hw ▸ hj
  have hq : logits[j]? = some logits[j] :=
    List.getElem?_eq_some.mpr ⟨hlj, rfl⟩
  have hm : (maskRow leng width)[j]? = some (decide (leng ≤ j)) := by
    simp [maskRow, List.getElem?_map, List.getElem?_range hj]
  rw [maskedFillRow, List.getElem?_zipWith, hq, hm]
  simp [h]

lemma maskedFillRow_unmasked (logits : List ℚ) (leng width j : Nat)
    (hw : logits.length = width) (hj : j < width) (h : j < leng) :
    ∃ q, (maskedFillRow logits (maskRow leng width))[j]? =
      some (MLogit.val q) := by
  have hlj : j < logits.length := hw ▸ hj
  have hq : logits[j]? = some logits[j] :=
    List.getElem?_eq_some.mpr ⟨hlj, rfl⟩
  have hm : (maskRow leng width)[j]? = some (decide (leng ≤ j)) := by
    simp [maskRow, List.getElem?_map, List.getElem?_range hj]
  refine ⟨logits[j], ?_⟩
  rw [maskedFillRow, List.getElem?_zipWith, hq, hm]
  simp [Nat.not_le.mpr h]

lemma maskRow_countP : ∀ (width leng : Nat),
    (maskRow leng width).countP (fun b => !b) = min leng width := by
  intro width
  induction width with
  | zero => intro leng; simp [maskRow]
  | succ w ih =>
    intro leng
    have hsplit : maskRow leng (w + 1) =
        maskRow leng w ++ [decide (leng ≤ w)] := by
      simp [maskRow, List.range_succ]
    rw [hsplit, List.countP_append, ih]
    by_cases h : leng ≤ w
    · simp [List.countP_cons, h]; omega
    · simp [List.countP_cons, h]; omega

lemma argmaxRow_lt_of_unmasked (logits : List ℚ) (leng width : Nat)
    (hw : logits.length = width) (h0 : 0 < leng) (hlw : leng ≤ width) :
    argmaxRow (maskedFillRow logits (maskRow leng width)) < leng := by
  have hlen := maskedFillRow_length logits leng width hw
  obtain ⟨q0, hq0⟩ :=
    maskedFillRow_unmasked logits leng width 0 hw (lt_of_lt_of_le h0 hlw) h0
  have hmem0 : MLogit.val q0 ∈ maskedFillRow logits (maskRow leng width) := by
    obtain ⟨hl, he⟩ := List.getElem?_eq_some.mp hq0
    exact he ▸ List.getElem_mem hl
  have hge := maxLogit_ge_mem _ MLogit.neginf _ hmem0
  have hm_ne : maxLogit (maskedFillRow logits (maskRow leng width))
      MLogit.neginf ≠ MLogit.neginf := by
    intro hcon
    rw [hcon] at hge
    simp [MLogit.leb] at hge
  have hmem : maxLogit (maskedFillRow logits (maskRow leng width))
      MLogit.neginf ∈ maskedFillRow logits (maskRow leng width) := by
    rcases maxLogit_mem_or (maskedFillRow logits (maskRow leng width))
      MLogit.neginf with h | h
    · exact absurd h hm_ne
    · exact h
  have hget := idxOfLogit_get _ _ hmem
  rw [List.get?_eq_getElem?] at hget
  have hidx : idxOfLogit (maxLogit (maskedFillRow logits (maskRow leng width))
      MLogit.neginf) (maskedFillRow logits (maskRow leng width)) < width := by
    have := (List.getElem?_eq_some.mp hget).1
    omega
  by_contra hcon
  push_neg at hcon
  have hmask := maskedFillRow_masked logits leng width _ hw hidx hcon
  rw [hmask] at hget
  exact hm_ne (Option.some_injective _ hget).symm

lemma expQ_pos (q : ℚ) : 0 < expQ q := by
  by_cases h : 0 ≤ q
  · simp only [expQ, if_pos h]; linarith
  · simp only [expQ, if_neg h]
    have : (0:ℚ) < 1 - q := by push_neg at h; linarith
    positivity

lemma weightOf_nonneg (x : MLogit) : 0 ≤ weightOf x := by
  cases x with
  | neginf => simp [weightOf]
  | val q => exact le_of_lt (expQ_pos q)

lemma sum_map_div_q (l : List ℚ) (c : ℚ) :
    (l.map (fun w => w / c)).sum = l.sum / c := by
  induction l with
  | nil => simp
  | cons x rest ih => simp [ih, add_div]

lemma sum_pos_of_mem_pos : ∀ (l : List ℚ), (∀ x ∈ l, 0 ≤ x) →
    ∀ y ∈ l, 0 < y → 0 < l.sum := by
  intro l
  induction l with
  | nil => intro _ y hy; simp at hy
  | cons x rest ih =>
    intro hnn y hy hypos
    rcases List.mem_cons.mp hy with h | h
    · subst h
      have : 0 ≤ rest.sum :=
        List.sum_nonneg (fun z hz => hnn z (List.mem_cons_of_mem _ hz))
      simp only [List.sum_cons]; linarith
    · have hx : 0 ≤ x := hnn x (List.mem_cons_self _ _)
      have := ih (fun z hz => hnn z (List.mem_cons_of_mem _ hz)) y h hypos
      simp only [List.sum_cons]; linarith

lemma sampleCatAux_spec : ∀ (l : List ℚ) (u : ℚ) (i : Nat), 0 ≤ u →
    u < l.sum → ∃ j p, sampleCatAux l u i = i + j ∧ l[j]? = some p ∧ 0 < p := by
  intro l
  induction l with
  | nil =>
    intro u i h0 h1
    simp only [List.sum_nil] at h1
    linarith
  | cons p rest ih =>
    intro u i h0 h1
    by_cases h : u < p
    · exact ⟨0, p, by simp [sampleCatAux, h], by simp, lt_of_le_of_lt h0 h⟩
    · push_neg at h
      have h0' : 0 ≤ u - p := by linarith
      have h1' : u - p < rest.sum := by
        simp only [List.sum_cons] at h1; linarith
      obtain ⟨j, q, hj, hq, hqpos⟩ := ih (u - p) (i + 1) h0' h1'
      refine ⟨j + 1, q, ?_, by simpa using hq, hqpos⟩
      rw [sampleCatAux, if_neg (not_lt.mpr h), hj]
      omega

/-- C3: after the candidate mask built from `candidate_leng` is applied to a
width-`width` logit row of an agent with `n` true candidates, exactly
`n + 1` slots are unmasked; the arg-max selection never returns a masked
slot; and categorical sampling (inverse CDF at any uniform draw
`0 ≤ u < 1`) never returns a masked slot. -/
theorem candidate_mask_selection (logits : List ℚ) (n width : Nat) (u : ℚ)
    (hw : logits.length = width) (hleng : n + 1 ≤ width)
    (hu0 : 0 ≤ u) (hu1 : u < 1) :
    (maskRow (n + 1) width).countP (fun b => !b) = n + 1 ∧
    argmaxRow (maskedFillRow logits (maskRow (n + 1) width)) < n + 1 ∧
    sampleCat (softmaxRow (maskedFillRow logits (maskRow (n + 1) width))) u
      < n + 1 := by
  refine ⟨?_, ?_, ?_⟩
  · rw [maskRow_countP]; omega
  · exact argmaxRow_lt_of_unmasked logits (n + 1) width hw (Nat.succ_pos n) hleng
  · have hlen := maskedFillRow_length logits (n + 1) width hw
    obtain ⟨q0, hq0⟩ := maskedFillRow_unmasked logits (n + 1) width 0 hw
      (by omega) (Nat.succ_pos n)
    have hmem0 : MLogit.val q0 ∈ maskedFillRow logits (maskRow (n + 1) width) := by
      obtain ⟨hl, he⟩ := List.getElem?_eq_some.mp hq0
      exact he ▸ List.getElem_mem hl
    have hw0mem : weightOf (MLogit.val q0) ∈
        (maskedFillRow logits (maskRow (n + 1) width)).map weightOf :=
      List.mem_map_of_mem weightOf hmem0
    have hnn : ∀ x ∈ (maskedFillRow logits (maskRow (n + 1) width)).map weightOf,
        0 ≤ x := by
      intro x hx
      obtain ⟨y, _, hy⟩ := List.mem_map.mp hx
      exact hy ▸ weightOf_nonneg y
    have htot : 0 <
        ((maskedFillRow logits (maskRow (n + 1) width)).map weightOf).sum :=
      sum_pos_of_mem_pos _ hnn _ hw0mem (by simpa [weightOf] using expQ_pos q0)
    have hsum : (softmaxRow (maskedFillRow logits (maskRow (n + 1) width))).sum
        = 1 := by
      rw [softmaxRow, sum_map_div_q, div_self (ne_of_gt htot)]
    obtain ⟨j, p, hj, hp, hppos⟩ :=
      sampleCatAux_spec (softmaxRow (maskedFillRow logits (maskRow (n + 1) width)))
        u 0 hu0 (by rw [hsum]; exact hu1)
    have hsample :
        sampleCat (softmaxRow (maskedFillRow logits (maskRow (n + 1) width))) u
          = j := by simpa [sampleCat] using hj
    rw [hsample]
    have hjlen : j <
        (softmaxRow (maskedFillRow logits (maskRow (n + 1) width))).length :=
      (List.getElem?_eq_some.mp hp).1
    have hjw : j < width := by
      have hsl : (softmaxRow (maskedFillRow logits (maskRow (n + 1) width))).length
          = width := by simp [softmaxRow, hlen]
      omega
    by_contra hcon
    push_neg at hcon
    have hmask := maskedFillRow_masked logits (n + 1) width j hw hjw hcon
    rw [softmaxRow, List.getElem?_map, List.getElem?_map, hmask] at hp
    simp [weightOf] at hp
    rw [← hp] at hppos
    exact absurd hppos (lt_irrefl 0)

/-- C3 witness: a two-slot row with one true candidate. -/
theorem candidate_mask_selection_witness :
    (maskRow 2 2).countP (fun b => !b) = 2 ∧
    argmaxRow (maskedFillRow [1, 0] (maskRow 2 2)) < 2 ∧
    sampleCat (softmaxRow (maskedFillRow [1, 0] (maskRow 2 2))) (1/2) < 2 :=
  candidate_mask_selection [1, 0] 1 2 (1/2) rfl (by decide) (by norm_num)
    (by norm_num)

/- ----------------------------------------------------------------------
Helper lemmas: `_candidate_variable1`.
---------------------------------------------------------------------- -/

lemma listMax_ge : ∀ (l : List Nat), ∀ x ∈ l, x ≤ listMax l := by
  intro l
  induction l with
  | nil => intro x hx; simp at hx
  | cons y rest ih =>
    intro x hx
    rcases List.mem_cons.mp hx with h | h
    · subst h; exact le_max_left _ _
    · exact le_trans (ih x h) (le_max_right _ _)

lemma candidateFeatRow_getElem (d width : Nat) (ob : Ob) (j : Nat)
    (hj : j < width) :
    (candidateFeatRow d width ob)[j]? =
      some (match ob.candidate.get? j with
            | some c => c.feature
            | none => List.replicate d 0) := by
  rw [candidateFeatRow, List.getElem?_map, List.getElem?_range hj]
  rfl

/-- C6: `_candidate_variable1` returns `candidate_leng` with
`candidate_leng[i] = len(candidate_i) + 1` and a feature tensor of shape
`(batch, max_i candidate_leng[i], d)` in which, for each agent, rows
`0 .. len(candidate_i)-1` hold the candidates' features and every row from
the stop slot `len(candidate_i)` up to the padded width is all zeros. -/
theorem candidate_variable1_spec (d : Nat) (obs : List Ob)
    (hfeat : ∀ ob ∈ obs, ∀ c ∈ ob.candidate, c.feature.length = d) :
    ((candidateVariable1 d obs).2 =
      obs.map (fun ob => ob.candidate.length + 1)) ∧
    ((candidateVariable1 d obs).1.length = obs.length) ∧
    (∀ row ∈ (candidateVariable1 d obs).1,
      row.length = listMax (candidate_leng obs) ∧
      ∀ cell ∈ row, cell.length = d) ∧
    (∀ (i : Nat) (ob : Ob), obs[i]? = some ob →
      (∀ (j : Nat) (c : Candidate), ob.candidate[j]? = some c →
        ((candidateVariable1 d obs).1[i]?.bind (fun row => row[j]?)) =
          some c.feature) ∧
      (∀ j, ob.candidate.length ≤ j → j < listMax (candidate_leng obs) →
        ((candidateVariable1 d obs).1[i]?.bind (fun row => row[j]?)) =
          some (List.replicate d 0))) := by
  refine ⟨rfl, by simp [candidateVariable1], ?_, ?_⟩
  · intro row hrow
    rw [candidateVariable1] at hrow
    simp only [List.mem_map] at hrow
    obtain ⟨ob, hob, hrow⟩ := hrow
    constructor
    · rw [← hrow, candidateFeatRow]; simp
    · intro cell hcell
      rw [← hrow, candidateFeatRow] at hcell
      simp only [List.mem_map] at hcell
      obtain ⟨j, _, hcell⟩ := hcell
      rcases hget : ob.candidate.get? j with _ | c
      · rw [hget] at hcell
        simp [← hcell]
      · rw [hget] at hcell
        have hc : c ∈ ob.candidate := by
          rw [List.get?_eq_getElem?] at hget
          obtain ⟨hl, he⟩ := List.getElem?_eq_some.mp hget
          exact he ▸ List.getElem_mem hl
        rw [← hcell]
        exact hfeat ob hob c hc
  · intro i ob hi
    have hobmem : ob ∈ obs := by
      obtain ⟨hl, he⟩ := List.getElem?_eq_some.mp hi
      exact he ▸ List.getElem_mem hl
    have hrow : (candidateVariable1 d obs).1[i]? =
        some (candidateFeatRow d (listMax (candidate_leng obs)) ob) := by
      rw [candidateVariable1]
      simp only [List.getElem?_map, hi, Option.map_some']
    have hlenmem : ob.candidate.length + 1 ∈ candidate_leng obs := by
      rw [candidate_leng]
      exact List.mem_map_of_mem _ hobmem
    have hmax : ob.candidate.length + 1 ≤ listMax (candidate_leng obs) :=
      listMax_ge _ _ hlenmem
    constructor
    · intro j c hj
      have hjlt : j < ob.candidate.length := (List.getElem?_eq_some.mp hj).1
      have hjw : j < listMax (candidate_leng obs) := by omega
      rw [hrow, Option.some_bind, candidateFeatRow_getElem d _ ob j hjw,
        List.get?_eq_getElem?, hj]
    · intro j hjlen hjw
      have hnone : ob.candidate.get? j = none := by
        rw [List.get?_eq_getElem?]
        exact List.getElem?_eq_none hjlen
      rw [hrow, Option.some_bind, candidateFeatRow_getElem d _ ob j hjw, hnone]

/-- C6 witness: the `candidate_leng = [3, 5]` scenario — a 2-agent batch with
2 and 4 candidates; agent 0's slot 3 (a padding slot past its stop slot 2) is
the zero feature. -/
theorem candidate_variable1_spec_witness :
    (candidateVariable1 1
      [⟨"a", "a", 0, 0, 0, [⟨"a1", 0, [5]⟩, ⟨"a2", 1, [6]⟩]⟩,
       ⟨"b", "b", 0, 0, 0, [⟨"b1", 0, [1]⟩, ⟨"b2", 1, [2]⟩, ⟨"b3", 2, [3]⟩,
         ⟨"b4", 3, [4]⟩]⟩]).1[0]?.bind (fun row => row[3]?) =
      some (List.replicate 1 0) :=
  ((candidate_variable1_spec 1
      [⟨"a", "a", 0, 0, 0, [⟨"a1", 0, [5]⟩, ⟨"a2", 1, [6]⟩]⟩,
       ⟨"b", "b", 0, 0, 0, [⟨"b1", 0, [1]⟩, ⟨"b2", 1, [2]⟩, ⟨"b3", 2, [3]⟩,
         ⟨"b4", 3, [4]⟩]⟩] (by decide)).2.2.2 0
    ⟨"a", "a", 0, 0, 0, [⟨"a1", 0, [5]⟩, ⟨"a2", 1, [6]⟩]⟩ rfl).2 3 (by decide)
    (by decide)

/- ----------------------------------------------------------------------
Helper lemmas: the rollout episode loop.
---------------------------------------------------------------------- -/

lemma forceAction_ended (next_id : Int) (candLeng : Nat) (ignoreid : Int) :
    forceAction next_id candLeng ignoreid true = -1 := by
  simp [forceAction]

lemma agentStep_ended (ignoreid : Int) (candLeng : Nat) (inp : StepIn)
    (a : AgentRoll) (h : a.ended = true) :
    agentStep ignoreid candLeng inp a = .ok (⟨true, a.path, inp.dist⟩, 0, 0) := by
  rcases a with ⟨e, p, ld⟩
  simp only at h
  subst h
  simp [agentStep, forceAction, stepRewardMask]
  rfl

lemma rolloutLoop_steps (ignoreid : Int)
    (stream : Nat → List StepIn × List Nat) :
    ∀ (fuel t : Nat) (ags final : List AgentRoll) (steps : Nat),
      rolloutLoop ignoreid stream fuel t ags = .ok (final, steps) →
      steps ≤ t + fuel := by
  intro fuel
  induction fuel with
  | zero =>
    intro t ags final steps h
    simp only [rolloutLoop, Except.ok.injEq, Prod.mk.injEq] at h
    obtain ⟨-, h2⟩ := h
    omega
  | succ fuel ih =>
    intro t ags final steps h
    rw [rolloutLoop] at h
    split at h
    · simp at h
    · split at h
      · simp only [Except.ok.injEq, Prod.mk.injEq] at h
        obtain ⟨-, h2⟩ := h
        omega
      · have := ih (t + 1) _ final steps h
        omega

/-- C5: the ended flag is monotone across rollout timesteps; an ended agent's
action is forced to the `-1` sentinel, its trajectory is not extended, and its
reward and mask weight are 0; the episode loop executes at most `episode_len`
timesteps and returns immediately after any timestep on which every agent has
ended. -/
theorem rollout_ended_framing (ignoreid : Int) :
    (∀ (candLeng : Nat) (inp : StepIn) (a a' : AgentRoll) (r m : ℚ),
      agentStep ignoreid candLeng inp a = .ok (a', r, m) →
      a.ended = true → a'.ended = true) ∧
    (∀ (next_id : Int) (candLeng : Nat),
      forceAction next_id candLeng ignoreid true = -1) ∧
    (∀ (candLeng : Nat) (inp : StepIn) (a : AgentRoll), a.ended = true →
      agentStep ignoreid candLeng inp a =
        .ok (⟨true, a.path, inp.dist⟩, 0, 0)) ∧
    (∀ (stream : Nat → List StepIn × List Nat) (episode_len : Nat)
      (init final : List AgentRoll) (steps : Nat),
      rolloutRun ignoreid stream episode_len init = .ok (final, steps) →
      steps ≤ episode_len) ∧
    (∀ (stream : Nat → List StepIn × List Nat) (fuel t : Nat)
      (ags : List AgentRoll) (res : List (AgentRoll × ℚ × ℚ)),
      rollStepAux ignoreid (stream t).1 (stream t).2 ags = .ok res →
      (res.map (fun x => x.1)).all (fun x => x.ended) = true →
      rolloutLoop ignoreid stream (fuel + 1) t ags =
        .ok (res.map (fun x => x.1), t + 1)) := by
  refine ⟨?_, ?_, ?_, ?_, ?_⟩
  · intro candLeng inp a a' r m hstep hEnd
    rw [agentStep_ended ignoreid candLeng inp a hEnd] at hstep
    simp only [Except.ok.injEq, Prod.mk.injEq] at hstep
    obtain ⟨h1, -⟩ := hstep
    rw [← h1]
  · intro next_id candLeng
    exact forceAction_ended next_id candLeng ignoreid
  · intro candLeng inp a h
    exact agentStep_ended ignoreid candLeng inp a h
  · intro stream episode_len init final steps h
    simpa using rolloutLoop_steps ignoreid stream episode_len 0 init final steps h
  · intro stream fuel t ags res hstep hall
    rw [rolloutLoop, hstep]
    simp [hall]

/-- C5 witness: one step of an already-ended agent. -/
theorem rollout_ended_framing_witness :
    agentStep (-100) 3 ⟨0, 5, []⟩ ⟨true, [], 2⟩ = .ok (⟨true, [], 5⟩, 0, 0) :=
  (rollout_ended_framing (-100)).2.2.1 3 ⟨0, 5, []⟩ ⟨true, [], 2⟩ rfl

/- ----------------------------------------------------------------------
Helper lemmas: the search's association-list dict and score relaxation.
---------------------------------------------------------------------- -/

lemma alLookup_alInsert_self : ∀ (m : Assoc) (k : StateKey) (v : SearchState),
    alLookup (alInsert m k v) k = some v := by
  intro m
  induction m with
  | nil => intro k v; simp [alInsert, alLookup]
  | cons kv rest ih =>
    intro k v
    by_cases h : kv.1 = k
    · rcases kv with ⟨k', v'⟩
      simp only at h
      simp [alInsert, alLookup, h]
    · rcases kv with ⟨k', v'⟩
      simp only at h
      simp [alInsert, alLookup, h, ih]

lemma alLookup_alInsert_ne : ∀ (m : Assoc) (k k' : StateKey) (v : SearchState),
    k' ≠ k → alLookup (alInsert m k v) k' = alLookup m k' := by
  intro m
  induction m with
  | nil =>
    intro k k' v h
    have hne : ¬ k = k' := fun hc => h hc.symm
    simp [alInsert, alLookup, hne]
  | cons kv rest ih =>
    intro k k' v h
    rcases kv with ⟨k0, v0⟩
    by_cases h0 : k0 = k
    · subst h0
      have hne : ¬ k0 = k' := fun hc => h hc.symm
      simp [alInsert, alLookup, hne]
    · simp [alInsert, alLookup, h0, ih k k' v h]

lemma alLookup_relaxWrite_ne (m : Assoc) (k k' : StateKey) (v : SearchState)
    (h : k' ≠ k) : alLookup (relaxWrite m k v) k' = alLookup m k' := by
  rw [relaxWrite]
  rcases alLookup m k with _ | old
  · exact alLookup_alInsert_ne m k k' v h
  · by_cases hs : old.score < v.score
    · simp only [hs, if_pos]
      exact alLookup_alInsert_ne m k k' v h
    · simp [hs]

lemma scoreMono_refl (m : Assoc) : ScoreMono m m := by
  intro key old h
  exact ⟨old, h, le_refl _⟩

lemma scoreMono_trans {m1 m2 m3 : Assoc} (h1 : ScoreMono m1 m2)
    (h2 : ScoreMono m2 m3) : ScoreMono m1 m3 := by
  intro key old h
  obtain ⟨mid, hmid, hle1⟩ := h1 key old h
  obtain ⟨new, hnew, hle2⟩ := h2 key mid hmid
  exact ⟨new, hnew, le_trans hle1 hle2⟩

lemma scoreMono_relaxWrite (m : Assoc) (k : StateKey) (v : SearchState) :
    ScoreMono m (relaxWrite m k v) := by
  intro key old h
  by_cases hk : key = k
  · subst hk
    simp only [relaxWrite, h]
    by_cases hs : old.score < v.score
    · rw [if_pos hs]
      exact ⟨v, alLookup_alInsert_self m key v, le_of_lt hs⟩
    · rw [if_neg hs]
      exact ⟨old, h, le_refl _⟩
  · rw [alLookup_relaxWrite_ne m k key v hk]
    exact ⟨old, h, le_refl _⟩

lemma scoreMono_foldl (g : Assoc → Nat → Assoc)
    (hg : ∀ (m : Assoc) (j : Nat), ScoreMono m (g m j)) :
    ∀ (l : List Nat) (m : Assoc), ScoreMono m (l.foldl g m) := by
  intro l
  induction l with
  | nil => intro m; exact scoreMono_refl m
  | cons j rest ih =>
    intro m
    exact scoreMono_trans (hg m j) (ih (g m j))

lemma scoreMono_expand (inp : RoundInput) (key : StateKey) (st : SearchState)
    (m : Assoc) : ScoreMono m (expand inp key st m) := by
  rw [expand]
  exact scoreMono_foldl _
    (fun m' j => scoreMono_relaxWrite m' (expandEntry key st inp j).1
      (expandEntry key st inp j).2) _ m

lemma scoreMono_dijkStep (inp : RoundInput) (candNum : Nat) (s : AgentState) :
    ScoreMono s.id2state (dijkStep inp candNum s).id2state := by
  rw [dijkStep]
  split
  · exact scoreMono_refl _
  · split
    · exact scoreMono_refl _
    · split
      · exact scoreMono_refl _
      · exact scoreMono_expand _ _ _ _

/- ----------------------------------------------------------------------
Helper lemmas: search step invariants and loop preservation.
---------------------------------------------------------------------- -/

lemma dijkStep_finInv (inp : RoundInput) (candNum : Nat) (s : AgentState)
    (h : FinishedInv candNum s) :
    FinishedInv candNum (dijkStep inp candNum s) := by
  rw [dijkStep]
  split
  next hE => exact h
  next hE =>
    have hEf : s.ended = false := by simpa using hE
    split
    next hsel =>
      exact ⟨fun hcon => absurd hcon (by simp), h.2⟩
    next kv hsel =>
      split
      next hk =>
        have hlt : s.finished.length < candNum := h.1 hEf
        constructor
        · intro hcon
          have hcon' : (decide (candNum ≤ (kv.1 :: s.finished).length) ||
              decide ((kv.1 :: s.visited).length = s.id2state.length)) = false :=
            hcon
          simp only [Bool.or_eq_false_iff, decide_eq_false_iff_not] at hcon'
          show (kv.1 :: s.finished).length < candNum
          have := hcon'.1
          omega
        · show (kv.1 :: s.finished).length ≤ candNum
          simp only [List.length_cons]
          omega
      next hk =>
        exact ⟨fun _ => h.1 hEf, h.2⟩

lemma dijkStep_ended_of_quota (inp : RoundInput) (candNum : Nat)
    (s : AgentState) (h : FinishedInv candNum s) :
    candNum ≤ (dijkStep inp candNum s).finished.length →
    (dijkStep inp candNum s).ended = true := by
  rw [dijkStep]
  split
  next hE => intro _; exact hE
  next hE =>
    have hEf : s.ended = false := by simpa using hE
    split
    next hsel => intro _; rfl
    next kv hsel =>
      split
      next hk =>
        intro hcon
        have hcon' : candNum ≤ (kv.1 :: s.finished).length := hcon
        show (decide (candNum ≤ (kv.1 :: s.finished).length) ||
            decide ((kv.1 :: s.visited).length = s.id2state.length)) = true
        exact Bool.or_inl (decide_eq_true hcon')
      next hk =>
        intro hcon
        have hcon' : candNum ≤ s.finished.length := hcon
        have := h.1 hEf
        omega

lemma dijkStep_ended_of_allvisited (inp : RoundInput) (candNum : Nat)
    (s : AgentState) :
    (dijkStep inp candNum s).visited.length =
      (dijkStep inp candNum s).id2state.length →
    (dijkStep inp candNum s).ended = true := by
  rw [dijkStep]
  split
  next hE => intro _; exact hE
  next hE =>
    split
    next hsel => intro _; rfl
    next kv hsel =>
      split
      next hk =>
        intro hcon
        have hcon' : (kv.1 :: s.visited).length = s.id2state.length := hcon
        show (decide (candNum ≤ (kv.1 :: s.finished).length) ||
            decide ((kv.1 :: s.visited).length = s.id2state.length)) = true
        exact Bool.or_inr (decide_eq_true hcon')
      next hk =>
        intro hcon
        have hcon' : (kv.1 :: s.visited).length =
            (expand inp kv.1 kv.2 s.id2state).length := hcon
        show decide ((kv.1 :: s.visited).length =
            (expand inp kv.1 kv.2 s.id2state).length) = true
        exact decide_eq_true hcon'

lemma dijkRoundAux_pres (Q : AgentState → Prop) (candNum : Nat)
    (inpF : Nat → RoundInput)
    (hQ : ∀ (inp : RoundInput) (s : AgentState), Q s → Q (dijkStep inp candNum s)) :
    ∀ (i : Nat) (ags : List AgentState), (∀ s ∈ ags, Q s) →
      ∀ s' ∈ dijkRoundAux inpF candNum i ags, Q s' := by
  intro i ags
  induction ags generalizing i with
  | nil => intro _ s' hs'; simp [dijkRoundAux] at hs'
  | cons a rest ih =>
    intro hags s' hs'
    rw [dijkRoundAux] at hs'
    rcases List.mem_cons.mp hs' with hcase | hcase
    · rw [hcase]
      exact hQ _ a (hags a (List.mem_cons_self _ _))
    · exact ih (i + 1) (fun s hs => hags s (List.mem_cons_of_mem _ hs)) s' hcase

lemma dijkstraLoop_pres (Q : AgentState → Prop) (candNum : Nat)
    (oracle : Nat → Nat → RoundInput)
    (hQ : ∀ (inp : RoundInput) (s : AgentState), Q s → Q (dijkStep inp candNum s)) :
    ∀ (fuel r : Nat) (ags : List AgentState), (∀ s ∈ ags, Q s) →
      ∀ s' ∈ (dijkstraLoop oracle candNum fuel r ags).1, Q s' := by
  intro fuel
  induction fuel with
  | zero => intro r ags hags s' hs'; exact hags s' hs'
  | succ fuel ih =>
    intro r ags hags s' hs'
    rw [dijkstraLoop] at hs'
    have hags' : ∀ s ∈ dijkRoundAux (oracle r) candNum 0 ags, Q s :=
      dijkRoundAux_pres Q candNum (oracle r) hQ 0 ags hags
    split at hs'
    · exact hags' s' hs'
    · exact ih (r + 1) _ hags' s' hs'

lemma dijkstraLoop_rounds (oracle : Nat → Nat → RoundInput) (candNum : Nat) :
    ∀ (fuel r : Nat) (ags : List AgentState),
      (dijkstraLoop oracle candNum fuel r ags).2 ≤ r + fuel := by
  intro fuel
  induction fuel with
  | zero => intro r ags; simp [dijkstraLoop]
  | succ fuel ih =>
    intro r ags
    rw [dijkstraLoop]
    split
    · show r + 1 ≤ r + (fuel + 1)
      omega
    · have := ih (r + 1) (dijkRoundAux (oracle r) candNum 0 ags)
      omega

lemma forall₂_refl_of {α : Type} {R : α → α → Prop} (h : ∀ a, R a a) :
    ∀ l : List α, List.Forall₂ R l l := by
  intro l
  induction l with
  | nil => exact List.Forall₂.nil
  | cons a rest ih => exact List.Forall₂.cons (h a) ih

lemma forall₂_trans_of {α : Type} {R : α → α → Prop}
    (h : ∀ a b c, R a b → R b c → R a c) :
    ∀ l1 l2 l3 : List α, List.Forall₂ R l1 l2 → List.Forall₂ R l2 l3 →
      List.Forall₂ R l1 l3 := by
  intro l1 l2 l3 h12 h23
  induction h12 generalizing l3 with
  | nil => cases h23; exact List.Forall₂.nil
  | cons hab hrest ih =>
    cases h23 with
    | cons hbc hrest2 => exact List.Forall₂.cons (h _ _ _ hab hbc) (ih _ hrest2)

lemma dijkRoundAux_forall₂ {R : AgentState → AgentState → Prop}
    (candNum : Nat) (inpF : Nat → RoundInput)
    (hstep : ∀ (inp : RoundInput) (s : AgentState), R s (dijkStep inp candNum s)) :
    ∀ (i : Nat) (ags : List AgentState),
      List.Forall₂ R ags (dijkRoundAux inpF candNum i ags) := by
  intro i ags
  induction ags generalizing i with
  | nil => exact List.Forall₂.nil
  | cons a rest ih => exact List.Forall₂.cons (hstep _ a) (ih (i + 1))

lemma dijkstraLoop_forall₂ (R : AgentState → AgentState → Prop)
    (candNum : Nat) (oracle : Nat → Nat → RoundInput)
    (hrefl : ∀ a, R a a) (htrans : ∀ a b c, R a b → R b c → R a c)
    (hstep : ∀ (inp : RoundInput) (s : AgentState), R s (dijkStep inp candNum s)) :
    ∀ (fuel r : Nat) (ags : List AgentState),
      List.Forall₂ R ags (dijkstraLoop oracle candNum fuel r ags).1 := by
  intro fuel
  induction fuel with
  | zero => intro r ags; exact forall₂_refl_of hrefl ags
  | succ fuel ih =>
    intro r ags
    rw [dijkstraLoop]
    split
    · exact dijkRoundAux_forall₂ candNum (oracle r) hstep 0 ags
    · exact forall₂_trans_of htrans _ _ _
        (dijkRoundAux_forall₂ candNum (oracle r) hstep 0 ags) (ih (r + 1) _)

lemma expandEntry_key_ne95 (key : StateKey) (st : SearchState)
    (inp : RoundInput) (j : Nat) : (expandEntry key st inp j).1.2 ≠ -95 := by
  rw [expandEntry]
  rcases hc : inp.candidate.get? j with _ | c
  · show (-1 : Int) ≠ -95
    decide
  · show ((j : Nat) : Int) ≠ -95
    intro hcon
    omega

lemma rootLocInv_relaxWrite (loc : Loc) (m : Assoc) (k : StateKey)
    (v : SearchState) (hk : k.2 ≠ -95) (h : RootLocInv loc m) :
    RootLocInv loc (relaxWrite m k v) := by
  intro k' st' hl h95
  have hne : k' ≠ k := by
    intro hc
    subst hc
    exact hk h95
  rw [alLookup_relaxWrite_ne m k k' v hne] at hl
  exact h k' st' hl h95

lemma rootLocInv_foldl (loc : Loc) (key : StateKey) (st : SearchState)
    (inp : RoundInput) :
    ∀ (l : List Nat) (m : Assoc), RootLocInv loc m →
      RootLocInv loc (l.foldl
        (fun acc j => relaxWrite acc (expandEntry key st inp j).1
          (expandEntry key st inp j).2) m) := by
  intro l
  induction l with
  | nil => intro m h; exact h
  | cons j rest ih =>
    intro m h
    simp only [List.foldl_cons]
    exact ih _ (rootLocInv_relaxWrite loc m _ _
      (expandEntry_key_ne95 key st inp j) h)

lemma rootLocInv_expand (loc : Loc) (inp : RoundInput) (key : StateKey)
    (st : SearchState) (m : Assoc) (h : RootLocInv loc m) :
    RootLocInv loc (expand inp key st m) := by
  rw [expand]
  exact rootLocInv_foldl loc key st inp _ m h

lemma rootLocInv_dijkStep (loc : Loc) (inp : RoundInput) (candNum : Nat)
    (s : AgentState) (h : RootLocInv loc s.id2state) :
    RootLocInv loc (dijkStep inp candNum s).id2state := by
  rw [dijkStep]
  split
  · exact h
  · split
    · exact h
    · split
      · exact h
      · exact rootLocInv_expand loc inp _ _ _ h

lemma rootLocInv_init (vp : String) (hd el : ℚ) (h0 : List ℚ) :
    RootLocInv (vp, hd, el) (initAgentState vp hd el h0).id2state := by
  intro k st hl h95
  simp only [initAgentState, alLookup] at hl
  split at hl
  · cases hl
    rfl
  · simp at hl

lemma gatherLoop_spec (m : Assoc) (loc : Loc) (hinv : RootLocInv loc m) :
    ∀ (fuel : Nat) (key : StateKey) (tAcc : List Loc) (aAcc : List Int)
      (fAcc : List (Option (List ℚ × List ℚ))) (p : PathInfo),
      tAcc.length = aAcc.length → tAcc.length = fAcc.length →
      gatherLoop m fuel key tAcc aAcc fAcc = some p →
      p.trajectory.head? = some loc ∧
      p.trajectory.length = p.action.length + 1 ∧
      p.trajectory.length = p.visual_feature.length + 1 := by
  intro fuel
  induction fuel with
  | zero =>
    intro key tAcc aAcc fAcc p _ _ h
    simp [gatherLoop] at h
  | succ fuel ih =>
    intro key tAcc aAcc fAcc p hta htf h
    rw [gatherLoop] at h
    split at h
    · simp at h
    · rename_i st hlook
      split at h
      · rename_i h95
        have hp : p = ⟨(tAcc ++ [st.location]).reverse, aAcc.reverse,
            fAcc.reverse⟩ := by
          cases h
          rfl
        subst hp
        refine ⟨?_, ?_, ?_⟩
        · simp only [List.reverse_append, List.reverse_singleton,
            List.singleton_append, List.head?_cons]
          exact congrArg some (hinv key st hlook h95)
        · simp [hta]
        · simp [htf]
      · split at h
        · simp at h
        · rename_i prev hprev
          exact ih prev (tAcc ++ [st.location]) (aAcc ++ [key.2])
            (fAcc ++ [st.feature]) p (by simp [hta]) (by simp [htf]) h

/-- C8: the `_dijkstra` expansion loop executes at most 300 rounds; on exit
every batch item has at most `args.candidates` finished states (the assertion
of line 1005); and within one round an item is marked ended as soon as it has
accumulated `args.candidates` finished stop states or once all of its known
states have been visited. -/
theorem dijkstra_termination_caps (oracle : Nat → Nat → RoundInput)
    (candNum : Nat) (hc : 0 < candNum) (ags : List AgentState)
    (hinit : ∀ s ∈ ags, s.finished = [] ∧ s.ended = false) :
    ((dijkstraRun oracle candNum ags).2 ≤ 300) ∧
    (∀ s ∈ (dijkstraRun oracle candNum ags).1,
      s.finished.length ≤ candNum) ∧
    (∀ (inp : RoundInput) (s : AgentState), FinishedInv candNum s →
      candNum ≤ (dijkStep inp candNum s).finished.length →
      (dijkStep inp candNum s).ended = true) ∧
    (∀ (inp : RoundInput) (s : AgentState),
      (dijkStep inp candNum s).visited.length =
        (dijkStep inp candNum s).id2state.length →
      (dijkStep inp candNum s).ended = true) := by
  refine ⟨?_, ?_, ?_, ?_⟩
  · simpa using dijkstraLoop_rounds oracle candNum 300 0 ags
  · intro s hs
    have hQ : ∀ s0 ∈ ags, FinishedInv candNum s0 := by
      intro s0 hs0
      obtain ⟨hf, -⟩ := hinit s0 hs0
      exact ⟨fun _ => by rw [hf]; simpa using hc, by rw [hf]; simp⟩
    exact (dijkstraLoop_pres (FinishedInv candNum) candNum oracle
      (fun inp s0 h => dijkStep_finInv inp candNum s0 h) 300 0 ags hQ s hs).2
  · exact fun inp s h => dijkStep_ended_of_quota inp candNum s h
  · exact fun inp s => dijkStep_ended_of_allvisited inp candNum s

/-- C8 witness: a single-item batch with `args.candidates = 1` and a trivial
observation oracle. -/
theorem dijkstra_termination_caps_witness :
    (dijkstraRun (fun _ _ => ⟨[], [], 0, 0, [], [], []⟩) 1
      [initAgentState "v" 0 0 []]).2 ≤ 300 :=
  (dijkstra_termination_caps (fun _ _ => ⟨[], [], 0, 0, [], [], []⟩) 1
    (by decide) [initAgentState "v" 0 0 []] (by decide)).1

/-- C9: the search's score relaxation writes a new entry under a
`(viewpoint, action)` key if and only if the key is unseen or the new score
strictly improves the stored one; consequently the stored score of any key
never decreases across a step or across the whole run (the relaxation is
maximizing). -/
theorem dijkstra_score_relaxation :
    (∀ (m : Assoc) (key : StateKey) (st : SearchState),
      alLookup m key = none → relaxWrite m key st = alInsert m key st) ∧
    (∀ (m : Assoc) (key : StateKey) (st old : SearchState),
      alLookup m key = some old → old.score < st.score →
      relaxWrite m key st = alInsert m key st) ∧
    (∀ (m : Assoc) (key : StateKey) (st old : SearchState),
      alLookup m key = some old → st.score ≤ old.score →
      relaxWrite m key st = m) ∧
    (∀ (inp : RoundInput) (candNum : Nat) (s : AgentState),
      ScoreMono s.id2state (dijkStep inp candNum s).id2state) ∧
    (∀ (oracle : Nat → Nat → RoundInput) (candNum : Nat)
      (ags : List AgentState),
      List.Forall₂ (fun a b => ScoreMono a.id2state b.id2state) ags
        (dijkstraRun oracle candNum ags).1) := by
  refine ⟨?_, ?_, ?_, ?_, ?_⟩
  · intro m key st h
    simp only [relaxWrite, h]
  · intro m key st old h hlt
    simp only [relaxWrite, h, if_pos hlt]
  · intro m key st old h hle
    simp only [relaxWrite, h, if_neg (not_lt.mpr hle)]
  · exact fun inp candNum s => scoreMono_dijkStep inp candNum s
  · intro oracle candNum ags
    exact dijkstraLoop_forall₂ (fun a b => ScoreMono a.id2state b.id2state)
      candNum oracle (fun a => scoreMono_refl a.id2state)
      (fun a b c h1 h2 => scoreMono_trans h1 h2)
      (fun inp s => scoreMono_dijkStep inp candNum s) 300 0 ags

/-- C9 witness: relaxation writes an unseen key. -/
theorem dijkstra_score_relaxation_witness :
    relaxWrite [] ("v", 0) (initSearchState "v" 0 0 []) =
      alInsert [] ("v", 0) (initSearchState "v" 0 0 []) :=
  dijkstra_score_relaxation.1 [] ("v", 0) (initSearchState "v" 0 0 []) rfl

/-- C10: in any state of the search run, reconstructing a path record by
following `from_state_id` back-pointers to the root (action `-95`) and
reversing yields a trajectory whose first element is the agent's start
viewpoint location and whose action and visual-feature lists are each one
shorter than the trajectory. -/
theorem dijkstra_path_reconstruction (vp : String) (hd el : ℚ)
    (h0 : List ℚ) (oracle : Nat → Nat → RoundInput) (candNum : Nat) :
    ∀ s ∈ (dijkstraRun oracle candNum [initAgentState vp hd el h0]).1,
      ∀ (fuel : Nat) (key : StateKey) (p : PathInfo),
        gatherPath s.id2state fuel key = some p →
        p.trajectory.head? = some (vp, hd, el) ∧
        p.trajectory.length = p.action.length + 1 ∧
        p.trajectory.length = p.visual_feature.length + 1 := by
  intro s hs fuel key p hp
  have hroot : RootLocInv (vp, hd, el) s.id2state := by
    have hinit : ∀ s0 ∈ [initAgentState vp hd el h0],
        RootLocInv (vp, hd, el) s0.id2state := by
      intro s0 hs0
      have h := List.mem_singleton.mp hs0
      rw [h]
      exact rootLocInv_init vp hd el h0
    exact dijkstraLoop_pres (fun s0 => RootLocInv (vp, hd, el) s0.id2state)
      candNum oracle
      (fun inp s0 h => rootLocInv_dijkStep (vp, hd, el) inp candNum s0 h)
      300 0 _ hinit s hs
  exact gatherLoop_spec s.id2state (vp, hd, el) hroot fuel key [] [] [] p
    rfl rfl hp

lemma headD_mem {α : Type} (l : List α) (d : α) (h : l ≠ []) :
    l.headD d ∈ l := by
  cases l with
  | nil => exact absurd rfl h
  | cons a rest => simp

/-- C10 witness: the stop state reached after one expansion of a trivial
single-agent search reconstructs to a two-point trajectory rooted at the
start location, with one action and one feature snapshot. -/
theorem dijkstra_path_reconstruction_witness :
    (⟨[("v", 0, 0), ("v", 0, 0)], [-1], [some ([], [])]⟩ :
      PathInfo).trajectory.head? = some ("v", 0, 0) ∧
    (⟨[("v", 0, 0), ("v", 0, 0)], [-1], [some ([], [])]⟩ :
      PathInfo).trajectory.length =
      (⟨[("v", 0, 0), ("v", 0, 0)], [-1], [some ([], [])]⟩ :
        PathInfo).action.length + 1 ∧
    (⟨[("v", 0, 0), ("v", 0, 0)], [-1], [some ([], [])]⟩ :
      PathInfo).trajectory.length =
      (⟨[("v", 0, 0), ("v", 0, 0)], [-1], [some ([], [])]⟩ :
        PathInfo).visual_feature.length + 1 := by
  refine dijkstra_path_reconstruction "v" 0 0 []
    (fun _ _ => ⟨[], [], 0, 0, [], [], []⟩) 1
    ((dijkstraRun (fun _ _ => ⟨[], [], 0, 0, [], [], []⟩) 1
        [initAgentState "v" 0 0 []]).1.headD (initAgentState "v" 0 0 []))
    ?_ 2 ("v", -1)
    ⟨[("v", 0, 0), ("v", 0, 0)], [-1], [some ([], [])]⟩ (by decide)
  exact headD_mem _ _ (by decide)
